import Mathlib

/-!
Verification of the matrix library (packages `my_matrix_lib` and `matrixlib`).

The Python `Matrix` class stores `data` as a list of rows (lists of scalar
entries); the constructor rejects an empty outer list and ragged rows.  We
embed numeric entries as `ℚ` (the library's scalars are exact Python numbers
for the properties considered here) and boolean entries as `Bool`.  Methods
that raise exceptions are embedded as `Except PyErr` values; pure internal
computations whose index arguments are always in bounds along the verified
paths are embedded as total functions returning a default on an
out-of-bounds access (the Python code would raise `IndexOutOfBoundsError`
there instead; every theorem below only exercises in-bounds accesses).
-/

/-- Error kinds of the library's exception taxonomy (`exceptions.py`), plus the
builtin Python errors (`TypeError`, `ValueError`, `IndexError`) that the code
can raise. -/
inductive PyErr where
  | invalidDimensions
  | notSquare
  | singular
  | indexOutOfBounds
  | invalidData
  | invalidShape
  | matrixValue
  | typeError
  | valueError
  | indexError
deriving DecidableEq

/-- The data model shared by both snapshots of the library: a matrix is a
list of rows.  `α` is the entry type (`ℚ` for numeric matrices, `Bool` or
mixed `PyVal` for the boolean-logic operations). -/
structure PyMatrixOf (α : Type) where
  data : List (List α)
deriving DecidableEq

/-- Numeric matrices (entries are exact scalars). -/
abbrev PyMatrix := PyMatrixOf ℚ

/-- A runtime Python value as far as the boolean-logic mixin distinguishes
them: a `bool` or a number (`isinstance(entry, bool)` checks). -/
inductive PyVal where
  | bool (b : Bool)
  | num (q : ℚ)
deriving DecidableEq

namespace PyMatrixOf

/-- `self.rows`: number of rows (`len(data)`). -/
def rows {α : Type} (A : PyMatrixOf α) : ℕ := A.data.length

/-- `self.cols`: number of columns (`len(data[0])`). -/
def cols {α : Type} (A : PyMatrixOf α) : ℕ := (A.data.headD []).length

/-- The constructor's invariant (`Matrix.__init__`): the outer list is
non-empty and every row has the length of the first row. -/
def Wf {α : Type} (A : PyMatrixOf α) : Prop :=
  A.data ≠ [] ∧ ∀ r ∈ A.data, r.length = A.cols

instance {α : Type} [DecidableEq α] (A : PyMatrixOf α) : Decidable A.Wf := by
  unfold Wf; infer_instance

end PyMatrixOf

/-- The library-wide tolerance: `1e-8` (`GlobalsMixin._eps`, and the literal
`1e-8` used by `inverse_matrix` and the row operations). -/
def eps : ℚ := 1 / 100000000

/-- 1-based element access `self[i, j]` (`__getitem__` with two integer
indices), totalised: in-bounds accesses return `data[i-1][j-1]`, the
out-of-bounds accesses (where the source raises `IndexOutOfBoundsError`)
return `0`.  A faithful `Except`-valued version is `my_matrix_lib.getItem`. -/
def idx (A : PyMatrix) (i j : ℤ) : ℚ :=
  if 1 ≤ i ∧ i ≤ (A.rows : ℤ) ∧ 1 ≤ j ∧ j ≤ (A.cols : ℤ) then
    (A.data.getD (i - 1).toNat []).getD (j - 1).toNat 0
  else 0

/-- Python's `range(1, n+1)` as a list of ints. -/
def pyRange1 (n : ℕ) : List ℤ := (List.range' 1 n).map (fun t : ℕ => (t : ℤ))

/-- Python's `sorted(list(set(l)))`: the duplicate-free ascending enumeration
of the elements of `l` (modelled by sorting the deduplicated list). -/
def sortDedup (l : List ℤ) : List ℤ := l.dedup.insertionSort (· ≤ ·)

namespace my_matrix_lib

/-- `Matrix.__getitem__` of `my_matrix_lib` (two integer indices, 1-based,
bounds-checked; the row index is checked first). -/
def getItem (A : PyMatrix) (i j : ℤ) : Except PyErr ℚ :=
  if ¬ (1 ≤ i ∧ i ≤ (A.rows : ℤ)) then Except.error PyErr.indexOutOfBounds
  else if ¬ (1 ≤ j ∧ j ≤ (A.cols : ℤ)) then Except.error PyErr.indexOutOfBounds
  else Except.ok ((A.data.getD (i - 1).toNat []).getD (j - 1).toNat 0)

/-- `Matrix.__call__`: `m(i, j)` is the shorthand `self[i+1, j+1]`
(0-based positional access). -/
def callForm (A : PyMatrix) (i j : ℤ) : Except PyErr ℚ :=
  getItem A (i + 1) (j + 1)

/-- `identity(n)` body (the matrix built after validation):
`[[1 if i==j else 0 for j in range(n)] for i in range(n)]`. -/
def identityData (n : ℕ) : PyMatrix :=
  ⟨(List.range n).map (fun i => (List.range n).map (fun j => if i = j then (1 : ℚ) else 0))⟩

/-- `MatrixFactoryMixin.identity(n)` with its argument validation
(`n` must be an integer — guaranteed by the embedding's type — and `> 0`). -/
def identity (n : ℤ) : Except PyErr PyMatrix :=
  if n ≤ 0 then Except.error PyErr.matrixValue
  else Except.ok (identityData n.toNat)

/-- `MatrixFactoryMixin.zeros(n, m=None)`.  After the type checks the source
runs `if n <= 0: raise`, then `if m is not None or m <= 0: raise
MatrixValueError`.  The second guard short-circuits to a raise whenever `m`
is provided, and when `m` is omitted Python evaluates `None <= 0`, raising
`TypeError`; the zero matrix below the guards is unreachable. -/
def zeros (n : ℤ) (m : Option ℤ) : Except PyErr PyMatrix :=
  if n ≤ 0 then Except.error PyErr.matrixValue
  else
    match m with
    | some _ => Except.error PyErr.matrixValue
    | none => Except.error PyErr.typeError

/-- `transpose`: `[[self[row,col] for row in range(1, rows+1)] for col in
range(1, cols+1)]`. -/
def transpose (A : PyMatrix) : PyMatrix :=
  ⟨(pyRange1 A.cols).map (fun c => (pyRange1 A.rows).map (fun r => idx A r c))⟩

/-- The matrix built by `submatrix(rows, cols)` after validation:
duplicates removed and indices sorted ascending
(`rows = sorted(list(set(rows)))`), then entries `self[r, c]`. -/
def submatrixData (A : PyMatrix) (rs cs : List ℤ) : PyMatrix :=
  ⟨(sortDedup rs).map (fun r => (sortDedup cs).map (fun c => idx A r c))⟩

/-- `UnaryMatrixOperationsMixin.submatrix(rows, cols)` with its validation:
non-empty index lists (the integer type is guaranteed by the embedding),
all 1-based indices in bounds, then the sorted deduplicated selection. -/
def submatrix (A : PyMatrix) (rs cs : List ℤ) : Except PyErr PyMatrix :=
  if rs = [] then Except.error PyErr.invalidData
  else if cs = [] then Except.error PyErr.invalidData
  else if rs.any (fun i => decide (¬ (1 ≤ i ∧ i ≤ (A.rows : ℤ)))) then
    Except.error PyErr.indexOutOfBounds
  else if cs.any (fun j => decide (¬ (1 ≤ j ∧ j ≤ (A.cols : ℤ)))) then
    Except.error PyErr.indexOutOfBounds
  else Except.ok (submatrixData A rs cs)

/-- The matrix whose determinant `minor(rows, cols)` takes: the submatrix
keeping the row indices of `range(1, rows+1)` not excluded by `rs` and the
column indices of `range(1, cols+1)` not excluded by `cs`. -/
def minorData (A : PyMatrix) (rs cs : List ℤ) : PyMatrix :=
  submatrixData A ((pyRange1 A.rows).filter (fun r => decide (r ∉ rs)))
    ((pyRange1 A.cols).filter (fun c => decide (c ∉ cs)))

/-- The recursion of `determinant` on the row count: a 1×1 matrix's
determinant is its sole entry, otherwise Laplace expansion along the first
row, `sum(self[1,j] * self.C(1,j) for j in range(1, cols+1))` with
`C(1,j) = (-1)**(1+j) * minor([1],[j])`.  The fuel argument equals the row
count at every call along the verified paths; a 0-row matrix (rejected by
the constructor, and on which the Python code would raise) yields `0`. -/
def detFuel : ℕ → PyMatrix → ℚ
  | 0, A => if A.rows = 1 then idx A 1 1 else 0
  | fuel + 1, A =>
    if A.rows = 1 then idx A 1 1
    else
      ((pyRange1 A.cols).map
        (fun j => idx A 1 j * ((-1 : ℚ) ^ (1 + j) * detFuel fuel (minorData A [1] [j])))).sum

/-- `UnaryMatrixOperationsMixin.determinant` (see `detFuel`; the `NotSquare`
guard is a hypothesis of every theorem using it). -/
def determinant (A : PyMatrix) : ℚ := detFuel A.rows A

/-- `minor(rows, cols)`: validates the exclusion lists (non-empty, integer,
in bounds), then takes the determinant of
`submatrix([row for row in range(1, rows+1) if row not in rows], ...)`.
The inner `submatrix` call re-validates: in particular it raises
`InvalidDataError` when an exclusion list covers a whole axis, leaving the
complement empty (the `.det` `NotSquare` path is not exercised here). -/
def minor (A : PyMatrix) (rs cs : List ℤ) : Except PyErr ℚ :=
  if rs = [] then Except.error PyErr.invalidData
  else if cs = [] then Except.error PyErr.invalidData
  else if rs.any (fun i => decide (¬ (1 ≤ i ∧ i ≤ (A.rows : ℤ)))) then
    Except.error PyErr.indexOutOfBounds
  else if cs.any (fun j => decide (¬ (1 ≤ j ∧ j ≤ (A.cols : ℤ)))) then
    Except.error PyErr.indexOutOfBounds
  else
    (submatrix A ((pyRange1 A.rows).filter (fun r => decide (r ∉ rs)))
      ((pyRange1 A.cols).filter (fun c => decide (c ∉ cs)))).map determinant

/-- `first_minor(i, j) = minor([i], [j])` (alias `M`). -/
def first_minor (A : PyMatrix) (i j : ℤ) : Except PyErr ℚ :=
  minor A [i] [j]

/-- `cofactor(i, j) = (-1)**(i+j) * M(i, j)` (alias `C`). -/
def cofactor (A : PyMatrix) (i j : ℤ) : Except PyErr ℚ :=
  (first_minor A i j).map (fun m => (-1 : ℚ) ^ (i + j) * m)

/-- `cofactor_matrix`: `[[C(i,j) for j in range(1, cols+1)] for i in
range(1, rows+1)]`; the first raising `C(i,j)` call propagates. -/
def cofactor_matrix (A : PyMatrix) : Except PyErr PyMatrix :=
  ((pyRange1 A.rows).mapM (fun i => (pyRange1 A.cols).mapM (fun j => cofactor A i j))).map
    (fun d => ⟨d⟩)

/-- `adjugate_matrix`: transpose of the cofactor matrix (alias `adj`). -/
def adjugate_matrix (A : PyMatrix) : Except PyErr PyMatrix :=
  (cofactor_matrix A).map transpose

/-- `scalar_multiplication(scaler)`:
`[[scaler * self(row,col) for col in range(cols)] for row in range(rows)]`. -/
def scalar_multiplication (A : PyMatrix) (s : ℚ) : PyMatrix :=
  ⟨(List.range A.rows).map (fun r : ℕ =>
    (List.range A.cols).map (fun c : ℕ => s * idx A ((r : ℤ) + 1) ((c : ℤ) + 1)))⟩

/-- `inverse_matrix`: computes the determinant, raises `SingularMatrixError`
when `abs(det) < 1e-8`, otherwise returns `self.adj * (1/det)` (an error
raised while computing the adjugate propagates). -/
def inverse_matrix (A : PyMatrix) : Except PyErr PyMatrix :=
  if |determinant A| < eps then Except.error PyErr.singular
  else (adjugate_matrix A).map (fun adj => scalar_multiplication adj (1 / determinant A))

/-- `matrix_multiplication`: requires `self.cols == other.rows`, entries
`sum(self(i,r) * other(r,j) for r in range(self.cols))` (0-based calls). -/
def matrix_multiplication (A B : PyMatrix) : Except PyErr PyMatrix :=
  if A.cols ≠ B.rows then Except.error PyErr.invalidDimensions
  else Except.ok ⟨(List.range A.rows).map (fun i : ℕ =>
    (List.range B.cols).map (fun j : ℕ =>
      (((List.range A.cols).map
        (fun r : ℕ => idx A ((i : ℤ) + 1) ((r : ℤ) + 1) * idx B ((r : ℤ) + 1) ((j : ℤ) + 1)))).sum))⟩

/-- `trace`: `sum(self[i,i] for i in range(1, rows+1))` (square-only; the
`NotSquare` guard is a hypothesis of every theorem using it). -/
def trace (A : PyMatrix) : ℚ := ((pyRange1 A.rows).map (fun i => idx A i i)).sum

/-- `MatrixRowOperationsMixin.row_addition(i, j, k)`: bounds-checked, then
replaces every row *value-equal* to row `i` (`if row == self.data[i-1]`)
by `row_i + k·row_j`. -/
def row_addition (A : PyMatrix) (i j : ℤ) (k : ℚ) : Except PyErr PyMatrix :=
  if ¬ (1 ≤ i ∧ i ≤ (A.rows : ℤ)) ∨ ¬ (1 ≤ j ∧ j ≤ (A.rows : ℤ)) then
    Except.error PyErr.indexOutOfBounds
  else
    Except.ok ⟨A.data.map (fun row =>
      if row = A.data.getD (i - 1).toNat [] then
        (List.range A.cols).map (fun t =>
          (A.data.getD (i - 1).toNat []).getD t 0 + k * (A.data.getD (j - 1).toNat []).getD t 0)
      else row)⟩

end my_matrix_lib

namespace matrixlib

/-- `HelperMixin._have_same_size`: `self.rows == other.rows and self.cols ==
other.cols` (true when the shapes agree). -/
def have_same_size {α β : Type} (A : PyMatrixOf α) (B : PyMatrixOf β) : Bool :=
  decide (A.rows = B.rows ∧ A.cols = B.cols)

/-- `Matrix.__getitem__` of `matrixlib` with two integer indices (1-based,
bounds-checked, row index first) — identical to the `my_matrix_lib` form. -/
def getItem (A : PyMatrix) (i j : ℤ) : Except PyErr ℚ :=
  if ¬ (1 ≤ i ∧ i ≤ (A.rows : ℤ)) then Except.error PyErr.indexOutOfBounds
  else if ¬ (1 ≤ j ∧ j ≤ (A.cols : ℤ)) then Except.error PyErr.indexOutOfBounds
  else Except.ok ((A.data.getD (i - 1).toNat []).getD (j - 1).toNat 0)

/-- `Matrix.__call__` of `matrixlib`: `m(i, j)` returns `self[i+1, j+1]`
(0-based positional shorthand). -/
def callForm (A : PyMatrix) (i j : ℤ) : Except PyErr ℚ :=
  getItem A (i + 1) (j + 1)

/-- `ElementaryOperationsMixin.row_switching(i, j)`: bounds-checked; the row
at position `j-1` becomes old row `i-1`, the row at `i-1` becomes old row
`j-1`, all other rows are copied. -/
def row_switching (A : PyMatrix) (i j : ℤ) : Except PyErr PyMatrix :=
  if ¬ (1 ≤ i ∧ i ≤ (A.rows : ℤ)) ∨ ¬ (1 ≤ j ∧ j ≤ (A.rows : ℤ)) then
    Except.error PyErr.indexOutOfBounds
  else
    Except.ok ⟨A.data.enum.map (fun p =>
      if (p.1 : ℤ) = j - 1 then A.data.getD (i - 1).toNat []
      else if (p.1 : ℤ) = i - 1 then A.data.getD (j - 1).toNat []
      else p.2)⟩

/-- `ElementaryOperationsMixin.row_multiplication(i, k)`: bounds-checked;
rejects `abs(k) < 1e-8` with `ValueError`; scales row `i` by `k`. -/
def row_multiplication (A : PyMatrix) (i : ℤ) (k : ℚ) : Except PyErr PyMatrix :=
  if ¬ (1 ≤ i ∧ i ≤ (A.rows : ℤ)) then Except.error PyErr.indexOutOfBounds
  else if |k| < eps then Except.error PyErr.valueError
  else
    Except.ok ⟨A.data.enum.map (fun p =>
      if (p.1 : ℤ) = i - 1 then p.2.map (fun a => k * a) else p.2)⟩

/-- `ElementaryOperationsMixin.row_addition(i, j, k)`: bounds-checked, then
replaces every row *value-equal* to row `i` (`if row == self._data[i-1]`)
by `row_i + k·row_j` (entries `self._data[i-1][t] + k*self._data[j-1][t]`
for `t in range(self.cols)`). -/
def row_addition (A : PyMatrix) (i j : ℤ) (k : ℚ) : Except PyErr PyMatrix :=
  if ¬ (1 ≤ i ∧ i ≤ (A.rows : ℤ)) ∨ ¬ (1 ≤ j ∧ j ≤ (A.rows : ℤ)) then
    Except.error PyErr.indexOutOfBounds
  else
    Except.ok ⟨A.data.map (fun row =>
      if row = A.data.getD (i - 1).toNat [] then
        (List.range A.cols).map (fun t =>
          (A.data.getD (i - 1).toNat []).getD t 0 + k * (A.data.getD (j - 1).toNat []).getD t 0)
      else row)⟩

/-- One column step of `reduced_row_echelon_form` (state: current matrix and
1-based pivot row counter; `A0` is the original receiver, whose `rows`/`cols`
drive every loop bound in the source). -/
def rrefColumn (A0 : PyMatrix) (st : PyMatrix × ℕ) (j : ℤ) : Except PyErr (PyMatrix × ℕ) := do
  let (M, pivot) := st
  match (List.range' pivot (A0.rows + 1 - pivot)).find? (fun i => decide (eps ≤ |idx M (i : ℤ) j|)) with
  | none => pure (M, pivot)
  | some i => do
    let M ← row_switching M (i : ℤ) (pivot : ℤ)
    let M ← row_multiplication M (pivot : ℤ) (idx M (pivot : ℤ) j)⁻¹
    let M ← (List.range' 1 A0.rows).foldlM (fun M i =>
      if i = pivot then pure M
      else row_addition M (i : ℤ) (pivot : ℤ) (-(idx M (i : ℤ) j))) M
    pure (M, pivot + 1)

/-- `ElementaryOperationsMixin.reduced_row_echelon_form`: scans the columns
left to right; in each column searches from the pivot row down for an entry
of magnitude at least `eps`, swaps it up, scales the pivot row by the
inverse of the pivot entry, eliminates the column from every other row, and
advances the pivot counter; a column without such an entry is skipped. -/
def reduced_row_echelon_form (A : PyMatrix) : Except PyErr PyMatrix := do
  let st ← (pyRange1 A.cols).foldlM (rrefColumn A) (A, 1)
  pure st.1

/-- `BinaryMatrixOperationsMixin.kronecker_product`: no shape guard; the
result's rows are indexed by `(r, v)` pairs (`r` over `self`'s rows, `v`
over `other`'s rows) and its columns by `(s, w)` pairs. -/
def kronecker_product (A B : PyMatrix) : PyMatrix :=
  ⟨(pyRange1 A.rows).flatMap (fun r =>
    (pyRange1 B.rows).map (fun v =>
      (pyRange1 A.cols).flatMap (fun s =>
        (pyRange1 B.cols).map (fun w => idx A r s * idx B v w))))⟩

/-- `BooleanLogicMixin.elementwise_equal(other, tol=None)`: requires same
type and shape, then compares `abs(self[i,j] - other[i,j]) <= tol`
(defaulting `tol` to the class epsilon), returning a boolean matrix. -/
def elementwise_equal (A B : PyMatrix) (tol : Option ℚ) : Except PyErr (PyMatrixOf Bool) :=
  if ¬ (A.rows = B.rows ∧ A.cols = B.cols) then Except.error PyErr.invalidDimensions
  else
    Except.ok ⟨(pyRange1 A.rows).map (fun i =>
      (pyRange1 A.cols).map (fun j => decide (|idx A i j - idx B i j| ≤ tol.getD eps)))⟩

/-- `BooleanLogicMixin.elementwise_not_equal(other, tol=None)`: same
validation as `elementwise_equal`, entries `abs(self[i,j] - other[i,j]) >
tol`. -/
def elementwise_not_equal (A B : PyMatrix) (tol : Option ℚ) : Except PyErr (PyMatrixOf Bool) :=
  if ¬ (A.rows = B.rows ∧ A.cols = B.cols) then Except.error PyErr.invalidDimensions
  else
    Except.ok ⟨(pyRange1 A.rows).map (fun i =>
      (pyRange1 A.cols).map (fun j => decide (tol.getD eps < |idx A i j - idx B i j|)))⟩

/-- `HelperMixin._is_boolean_matrix`: every entry is a Python `bool`. -/
def is_boolean_matrix (A : PyMatrixOf PyVal) : Bool :=
  A.data.all (fun row => row.all (fun v => match v with | PyVal.bool _ => true | PyVal.num _ => false))

/-- The Python truth value of an entry (only applied to `bool` entries along
the reachable paths of `elementwise_AND`). -/
def asBool (v : PyVal) : Bool :=
  match v with
  | PyVal.bool b => b
  | PyVal.num q => decide (q ≠ 0)

/-- `BooleanLogicMixin.elementwise_AND`: first guard raises
`InvalidDimensionsError` when `self._have_same_size(other)` holds — i.e.
exactly when the shapes agree; a non-boolean operand (checked next) raises
`InvalidDataError`; the remaining branch (shapes differing) evaluates
`not self.data[row][col] and other.data[row][col]` over `self`'s index
ranges, raising `IndexError` when `other` is smaller. -/
def elementwise_AND (A B : PyMatrixOf PyVal) : Except PyErr (PyMatrixOf PyVal) :=
  if have_same_size A B then Except.error PyErr.invalidDimensions
  else if ¬ (is_boolean_matrix A ∧ is_boolean_matrix B) then Except.error PyErr.invalidData
  else if ¬ (A.rows ≤ B.rows ∧ A.cols ≤ B.cols) then Except.error PyErr.indexError
  else
    Except.ok ⟨(List.range A.rows).map (fun r =>
      (List.range A.cols).map (fun c =>
        PyVal.bool (!(asBool ((A.data.getD r []).getD c (PyVal.num 0))) &&
          asBool ((B.data.getD r []).getD c (PyVal.num 0)))))⟩

/-- A slice component of a `matrixlib` `__getitem__` key: a plain integer or
a Python slice with optional `start`/`stop`/`step`. -/
inductive Key where
  | int (i : ℤ)
  | slice (start stop step : Option ℤ)

/-- Length of Python's `range(start, stop, step)` for `step ≠ 0`. -/
def pyRangeLen (start stop step : ℤ) : ℕ :=
  (if 0 < step then (stop - start + step - 1) / step
   else (start - stop + (-step) - 1) / (-step)).toNat

/-- Python's `list(range(start, stop, step))` for `step ≠ 0`. -/
def pyRangeList (start stop step : ℤ) : List ℤ :=
  (List.range (pyRangeLen start stop step)).map (fun t => start + step * (t : ℤ))

/-- The slice normalization of `__getitem__`, which uses `self.cols` as the
extent for **both** axes: `start` defaults to 1, `stop` to `cols+1`, `step`
to 1, and non-positive `start`/`stop` are shifted by `cols+1`. -/
def normSlice (colsExtent : ℕ) (start stop step : Option ℤ) : ℤ × ℤ × ℤ :=
  let s := start.getD 1
  let e := stop.getD ((colsExtent : ℤ) + 1)
  let st := step.getD 1
  (if 0 < s then s else (colsExtent : ℤ) + 1 + s,
   if 0 < e then e else (colsExtent : ℤ) + 1 + e, st)

/-- The index list a key component contributes: a singleton for an integer,
`list(range(...))` of the normalized slice otherwise (`none` models the
`ValueError` Python's `range` raises on a zero step). -/
def keyIndices (A : PyMatrix) (k : Key) : Option (List ℤ) :=
  match k with
  | Key.int i => some [i]
  | Key.slice a b c =>
    let (s, e, st) := normSlice A.cols a b c
    if st = 0 then none else some (pyRangeList s e st)

/-- The range-selection branch of `matrixlib`'s `Matrix.__getitem__` (taken
whenever a key component is a slice): builds the row and column index lists
(see `normSlice`/`keyIndices`) and returns `self.submatrix(rows, cols)`
(the `submatrix` mixin method, which deduplicates and sorts the selection). -/
def getItemRange (A : PyMatrix) (k0 k1 : Key) : Except PyErr PyMatrix :=
  match keyIndices A k0 with
  | none => Except.error PyErr.valueError
  | some rows =>
    match keyIndices A k1 with
    | none => Except.error PyErr.valueError
    | some cols => my_matrix_lib.submatrix A rows cols

end matrixlib

/-!  ## Claim theorems  -/

/-- **C3** (refuting evaluation).  The claim states
`reducedRowEchelonForm(reducedRowEchelonForm(A)) == reducedRowEchelonForm(A)`
for every matrix.  On `A = [[1,0],[0,1],[1,0]]` the first reduction returns
`[[0,0],[0,1],[0,0]]` (the duplicate-row comparison in `row_addition` zeroes
row 1 together with row 3), and reducing that result again returns
`[[0,1],[0,0],[0,0]]`, a different matrix (entries differ by 1, far beyond
tolerance). -/
theorem rref_not_idempotent :
    matrixlib.reduced_row_echelon_form ⟨[[1,0],[0,1],[1,0]]⟩ =
      Except.ok ⟨[[0,0],[0,1],[0,0]]⟩ ∧
    matrixlib.reduced_row_echelon_form ⟨[[0,0],[0,1],[0,0]]⟩ =
      Except.ok ⟨[[0,1],[0,0],[0,0]]⟩ ∧
    (⟨[[0,1],[0,0],[0,0]]⟩ : PyMatrix) ≠ ⟨[[0,0],[0,1],[0,0]]⟩ := by
  refine ⟨?_, ?_, ?_⟩
  · with_unfolding_all rfl
  · with_unfolding_all rfl
  · with_unfolding_all decide

/-- **C4** (refuting evaluation).  The claim states that a range selection
normalizes each axis against that axis's own extent and preserves the
selection order.  On the 3×2 matrix `[[1,2],[3,4],[5,6]]` the full
selection `A[:, :]` returns only the first **two** rows (the row slice is
normalized against the **column** count 2), a 2×2 matrix instead of the
full 3×2 matrix. -/
theorem getitem_range_counterexample :
    matrixlib.getItemRange ⟨[[1,2],[3,4],[5,6]]⟩
      (matrixlib.Key.slice none none none) (matrixlib.Key.slice none none none) =
      Except.ok ⟨[[1,2],[3,4]]⟩ ∧
    (⟨[[1,2],[3,4]]⟩ : PyMatrix).rows = 2 ∧
    (⟨[[1,2],[3,4],[5,6]]⟩ : PyMatrix).rows = 3 := by
  refine ⟨?_, rfl, rfl⟩
  with_unfolding_all rfl

/-- **C5** (refuting evaluation).  The claim states that `A & B` on two
boolean matrices of the same shape returns their entrywise conjunction.
The guard of `elementwise_AND` raises `InvalidDimensionsError` exactly when
`_have_same_size` is true, i.e. when the shapes agree: on the same-shape
boolean matrices `[[True]]` and `[[True]]` the operation raises instead of
returning `[[True]]`. -/
theorem and_rejects_equal_shapes :
    matrixlib.elementwise_AND ⟨[[PyVal.bool true]]⟩ ⟨[[PyVal.bool true]]⟩ =
      Except.error PyErr.invalidDimensions ∧
    matrixlib.have_same_size (⟨[[PyVal.bool true]]⟩ : PyMatrixOf PyVal)
      (⟨[[PyVal.bool true]]⟩ : PyMatrixOf PyVal) = true := by
  exact ⟨by with_unfolding_all rfl, by with_unfolding_all rfl⟩

/-- **C6** (refuting evaluation).  The claim states that `zeros(n, m)`
returns an n×m zero matrix and `zeros(n)` a square one.  The guard
`if m is not None or m <= 0` raises `MatrixValueError` for **every**
provided `m`, and when `m` is omitted Python evaluates `None <= 0` and
raises `TypeError`: `zeros` never constructs a matrix at all. -/
theorem zeros_never_constructs :
    (∀ (n : ℤ) (m : Option ℤ) (M : PyMatrix), my_matrix_lib.zeros n m ≠ Except.ok M) ∧
    my_matrix_lib.zeros 2 (some 3) = Except.error PyErr.matrixValue ∧
    my_matrix_lib.zeros 2 none = Except.error PyErr.typeError := by
  refine ⟨?_, by rfl, by rfl⟩
  intro n m M h
  by_cases hn : n ≤ 0
  · simp [my_matrix_lib.zeros, hn] at h
  · cases m <;> simp [my_matrix_lib.zeros, hn] at h

/-- **C7** (refuting evaluation).  The claim states that `rowAdd(i, j, k)`
changes only row `i`, even when another row has the same entries.  Both
snapshots compare rows by value (`if row == data[i-1]`): on
`A = [[1,2],[1,2]]`, `rowAdd(1, 2, 1)` replaces **both** rows with
`row_1 + 1·row_2 = [2,4]`, although the claim requires row 2 to stay
`[1,2]`. -/
theorem row_addition_counterexample :
    matrixlib.row_addition ⟨[[1,2],[1,2]]⟩ 1 2 1 = Except.ok ⟨[[2,4],[2,4]]⟩ ∧
    my_matrix_lib.row_addition ⟨[[1,2],[1,2]]⟩ 1 2 1 = Except.ok ⟨[[2,4],[2,4]]⟩ ∧
    ([[2,4],[2,4]] : List (List ℚ)).getD 1 [] ≠ ([[1,2],[1,2]] : List (List ℚ)).getD 1 [] := by
  refine ⟨?_, ?_, ?_⟩
  · with_unfolding_all rfl
  · with_unfolding_all rfl
  · with_unfolding_all decide

/-- **C9**.  For `0 ≤ i < rows` and `0 ≤ j < cols`, the call form `M(i, j)`
returns, in both snapshots, exactly what the 1-based bracket access
`M[i+1, j+1]` returns, namely the entry `data[i][j]` — so `M(0, 0)` is the
top-left entry. -/
theorem call_form_zero_based_shift (A : PyMatrix) (i j : ℤ)
    (hi0 : 0 ≤ i) (hi : i < (A.rows : ℤ)) (hj0 : 0 ≤ j) (hj : j < (A.cols : ℤ)) :
    matrixlib.callForm A i j = matrixlib.getItem A (i + 1) (j + 1) ∧
    my_matrix_lib.callForm A i j = my_matrix_lib.getItem A (i + 1) (j + 1) ∧
    matrixlib.callForm A i j = Except.ok ((A.data.getD i.toNat []).getD j.toNat 0) ∧
    my_matrix_lib.callForm A i j = Except.ok ((A.data.getD i.toNat []).getD j.toNat 0) := by
  have e1 : ¬ ¬ (1 ≤ i + 1 ∧ i + 1 ≤ (A.rows : ℤ)) := not_not_intro ⟨by omega, by omega⟩
  have e2 : ¬ ¬ (1 ≤ j + 1 ∧ j + 1 ≤ (A.cols : ℤ)) := not_not_intro ⟨by omega, by omega⟩
  have key : ∀ r : Except PyErr ℚ,
      (if ¬ (1 ≤ i + 1 ∧ i + 1 ≤ (A.rows : ℤ)) then Except.error PyErr.indexOutOfBounds
       else if ¬ (1 ≤ j + 1 ∧ j + 1 ≤ (A.cols : ℤ)) then Except.error PyErr.indexOutOfBounds
       else r) = r := by
    intro r
    rw [if_neg e1, if_neg e2]
  constructor
  · rfl
  constructor
  · rfl
  constructor
  · show matrixlib.getItem A (i + 1) (j + 1) = _
    unfold matrixlib.getItem
    rw [key]
    simp [Int.add_sub_cancel]
  · show my_matrix_lib.getItem A (i + 1) (j + 1) = _
    unfold my_matrix_lib.getItem
    rw [key]
    simp [Int.add_sub_cancel]

/-- Witness for **C9** at `A = [[7,8],[9,10]]`, `i = j = 0`: the call form
agrees with the 1-based access and yields the top-left entry `7`. -/
theorem call_form_zero_based_shift_witness :
    ((0:ℤ) ≤ 0 ∧ (0:ℤ) < ((⟨[[7,8],[9,10]]⟩ : PyMatrix).rows : ℤ) ∧
      (0:ℤ) ≤ 0 ∧ (0:ℤ) < ((⟨[[7,8],[9,10]]⟩ : PyMatrix).cols : ℤ)) ∧
    (matrixlib.callForm ⟨[[7,8],[9,10]]⟩ 0 0 =
      matrixlib.getItem ⟨[[7,8],[9,10]]⟩ 1 1 ∧
     my_matrix_lib.callForm ⟨[[7,8],[9,10]]⟩ 0 0 =
      my_matrix_lib.getItem ⟨[[7,8],[9,10]]⟩ 1 1 ∧
     matrixlib.callForm ⟨[[7,8],[9,10]]⟩ 0 0 =
      Except.ok (((⟨[[7,8],[9,10]]⟩ : PyMatrix).data.getD (0:ℤ).toNat []).getD (0:ℤ).toNat 0) ∧
     my_matrix_lib.callForm ⟨[[7,8],[9,10]]⟩ 0 0 =
      Except.ok (((⟨[[7,8],[9,10]]⟩ : PyMatrix).data.getD (0:ℤ).toNat []).getD (0:ℤ).toNat 0)) :=
  ⟨⟨by decide, by decide, by decide, by decide⟩,
   call_form_zero_based_shift ⟨[[7,8],[9,10]]⟩ 0 0 (by decide) (by decide) (by decide) (by decide)⟩

/-!  ## Basic list facts used by the shape/entry lemmas  -/

theorem pyRange1_length (n : ℕ) : (pyRange1 n).length = n := by
  rw [pyRange1, List.length_map, List.length_range']

theorem list_sum_const_nat {α : Type} (l : List α) (c : ℕ) :
    (l.map (fun _ => c)).sum = l.length * c := by
  induction l with
  | nil => simp
  | cons a t ih => simp [ih, Nat.succ_mul, Nat.add_comm]

/-- **C10**.  `elementwise_not_equal` is, for every pair of operands and
every tolerance (explicit or defaulted), the entrywise boolean negation of
`elementwise_equal`: on mismatched shapes both raise the same error, and on
matching shapes each entry `|a-b| > tol` is the negation of `|a-b| ≤ tol`. -/
theorem not_equal_negates_equal (A B : PyMatrix) (tol : Option ℚ) :
    matrixlib.elementwise_not_equal A B tol =
      (matrixlib.elementwise_equal A B tol).map
        (fun E => ⟨E.data.map (fun row => row.map (fun b => !b))⟩) := by
  unfold matrixlib.elementwise_not_equal matrixlib.elementwise_equal
  by_cases h : A.rows = B.rows ∧ A.cols = B.cols
  · rw [if_neg (not_not_intro h), if_neg (not_not_intro h)]
    have hb : ∀ x t : ℚ, decide (t < x) = !decide (x ≤ t) := by
      intro x t
      rw [← decide_not]
      exact decide_eq_decide.mpr not_le.symm
    simp [Except.map, List.map_map, hb]
  · rw [if_pos h, if_pos h]
    rfl

/-- **C8**.  `kronecker_product` has no shape-compatibility guard (its only
validation is the operand-type check): for any two well-formed matrices it
returns a well-formed matrix with `A.rows·B.rows` rows and `A.cols·B.cols`
columns. -/
theorem kronecker_no_shape_guard (A B : PyMatrix) (hA : A.Wf) (hB : B.Wf) :
    (matrixlib.kronecker_product A B).Wf ∧
    (matrixlib.kronecker_product A B).rows = A.rows * B.rows ∧
    (matrixlib.kronecker_product A B).cols = A.cols * B.cols := by
  have hrowlen : ∀ r v : ℤ,
      ((pyRange1 A.cols).flatMap (fun s =>
        (pyRange1 B.cols).map (fun w => idx A r s * idx B v w))).length = A.cols * B.cols := by
    intro r v
    rw [List.length_flatMap]
    have : ∀ s : ℤ, ((pyRange1 B.cols).map (fun w => idx A r s * idx B v w)).length = B.cols := by
      intro s; simp [pyRange1_length]
    calc ((pyRange1 A.cols).map (List.length ∘ fun s =>
            (pyRange1 B.cols).map (fun w => idx A r s * idx B v w))).sum
        = ((pyRange1 A.cols).map (fun _ => B.cols)).sum := by
          apply congrArg
          apply List.map_congr_left
          intro s _
          exact this s
      _ = A.cols * B.cols := by rw [list_sum_const_nat, pyRange1_length]
  have hrows : (matrixlib.kronecker_product A B).rows = A.rows * B.rows := by
    show (matrixlib.kronecker_product A B).data.length = _
    unfold matrixlib.kronecker_product
    rw [List.length_flatMap]
    calc ((pyRange1 A.rows).map (List.length ∘ fun r =>
            (pyRange1 B.rows).map (fun v => (pyRange1 A.cols).flatMap (fun s =>
              (pyRange1 B.cols).map (fun w => idx A r s * idx B v w))))).sum
        = ((pyRange1 A.rows).map (fun _ => B.rows)).sum := by
          apply congrArg
          apply List.map_congr_left
          intro r _
          simp [pyRange1_length]
      _ = A.rows * B.rows := by rw [list_sum_const_nat, pyRange1_length]
  have hmem : ∀ row ∈ (matrixlib.kronecker_product A B).data, row.length = A.cols * B.cols := by
    intro row hrow
    unfold matrixlib.kronecker_product at hrow
    simp only [List.mem_flatMap, List.mem_map] at hrow
    obtain ⟨r, -, v, -, hrv⟩ := hrow
    rw [← hrv]
    exact hrowlen r v
  have hApos : 0 < A.rows := List.length_pos.mpr hA.1
  have hBpos : 0 < B.rows := List.length_pos.mpr hB.1
  have hne : (matrixlib.kronecker_product A B).data ≠ [] := by
    have : 0 < (matrixlib.kronecker_product A B).data.length := by
      show 0 < (matrixlib.kronecker_product A B).rows
      rw [hrows]; positivity
    exact List.length_pos.mp this
  have hcols : (matrixlib.kronecker_product A B).cols = A.cols * B.cols := by
    rcases hK : (matrixlib.kronecker_product A B).data with - | ⟨r, t⟩
    · exact absurd hK hne
    · have hr : r ∈ (matrixlib.kronecker_product A B).data := by
        rw [hK]; exact List.mem_cons_self r t
      have hhead : (matrixlib.kronecker_product A B).cols = r.length := by
        show ((matrixlib.kronecker_product A B).data.headD []).length = _
        rw [hK]
        rfl
      rw [hhead]
      exact hmem r hr
  refine ⟨⟨hne, ?_⟩, hrows, hcols⟩
  intro r hr
  rw [hcols]
  exact hmem r hr

/-- Witness for **C8** at the shape-incompatible pair `A = [[1,2],[3,4]]`
(2×2), `B = [[0,5,6]]` (1×3): the product is well-formed of shape 2×6. -/
theorem kronecker_no_shape_guard_witness :
    ((⟨[[1,2],[3,4]]⟩ : PyMatrix).Wf ∧ (⟨[[0,5,6]]⟩ : PyMatrix).Wf) ∧
    ((matrixlib.kronecker_product ⟨[[1,2],[3,4]]⟩ ⟨[[0,5,6]]⟩).Wf ∧
     (matrixlib.kronecker_product ⟨[[1,2],[3,4]]⟩ ⟨[[0,5,6]]⟩).rows =
       (⟨[[1,2],[3,4]]⟩ : PyMatrix).rows * (⟨[[0,5,6]]⟩ : PyMatrix).rows ∧
     (matrixlib.kronecker_product ⟨[[1,2],[3,4]]⟩ ⟨[[0,5,6]]⟩).cols =
       (⟨[[1,2],[3,4]]⟩ : PyMatrix).cols * (⟨[[0,5,6]]⟩ : PyMatrix).cols) :=
  ⟨⟨by decide, by decide⟩,
   kronecker_no_shape_guard ⟨[[1,2],[3,4]]⟩ ⟨[[0,5,6]]⟩ (by decide) (by decide)⟩

/-!  ## Shape and entry lemmas for comprehension-built matrices  -/

theorem mapmap_rows {α β : Type} (L1 : List α) (L2 : List β) (f : α → β → ℚ) :
    (⟨L1.map (fun a => L2.map (f a))⟩ : PyMatrix).rows = L1.length := by
  simp [PyMatrixOf.rows]

theorem mapmap_cols {α β : Type} (L1 : List α) (L2 : List β) (f : α → β → ℚ)
    (h : L1 ≠ []) :
    (⟨L1.map (fun a => L2.map (f a))⟩ : PyMatrix).cols = L2.length := by
  rcases L1 with - | ⟨a, t⟩
  · exact absurd rfl h
  · show ((((a :: t).map (fun a => L2.map (f a))).headD []).length) = _
    simp

theorem mapmap_wf {α β : Type} (L1 : List α) (L2 : List β) (f : α → β → ℚ)
    (h : L1 ≠ []) :
    (⟨L1.map (fun a => L2.map (f a))⟩ : PyMatrix).Wf := by
  refine ⟨by simpa using h, ?_⟩
  intro r hr
  rw [mapmap_cols L1 L2 f h]
  simp only [List.mem_map] at hr
  obtain ⟨a, -, rfl⟩ := hr
  simp

theorem idx_mapmap {α β : Type} (L1 : List α) (L2 : List β) (f : α → β → ℚ)
    (t u : ℕ) (ht : t < L1.length) (hu : u < L2.length) :
    idx ⟨L1.map (fun a => L2.map (f a))⟩ ((t : ℤ) + 1) ((u : ℤ) + 1) = f L1[t] L2[u] := by
  have hne : L1 ≠ [] := by
    intro h; rw [h] at ht; exact absurd ht (by simp)
  have hrows := mapmap_rows L1 L2 f
  have hcols := mapmap_cols L1 L2 f hne
  unfold idx
  rw [if_pos]
  · have h1 : (((t : ℤ) + 1 - 1).toNat) = t := by omega
    have h2 : (((u : ℤ) + 1 - 1).toNat) = u := by omega
    rw [h1, h2]
    have hd : (⟨L1.map (fun a => L2.map (f a))⟩ : PyMatrix).data.getD t [] = L2.map (f L1[t]) := by
      show (L1.map (fun a => L2.map (f a))).getD t [] = _
      rw [List.getD_eq_getElem _ _ (by simpa using ht), List.getElem_map]
    rw [hd, List.getD_eq_getElem _ _ (by simpa using hu), List.getElem_map]
  · refine ⟨by omega, ?_, by omega, ?_⟩
    · rw [hrows]; omega
    · rw [hcols]; omega

theorem pyRange1_getElem (n t : ℕ) (ht : t < (pyRange1 n).length) :
    (pyRange1 n)[t] = (t : ℤ) + 1 := by
  unfold pyRange1
  rw [List.getElem_map, List.getElem_range']
  omega

theorem sum_map_range (n : ℕ) (f : ℕ → ℚ) :
    ((List.range n).map f).sum = ∑ t ∈ Finset.range n, f t := by
  induction n with
  | zero => simp
  | succ k ih => simp [List.range_succ, Finset.sum_range_succ, ih]

theorem sum_pyRange1 (n : ℕ) (f : ℤ → ℚ) :
    ((pyRange1 n).map f).sum = ∑ t ∈ Finset.range n, f ((t : ℤ) + 1) := by
  have h : (pyRange1 n).map f = (List.range n).map (fun t : ℕ => f ((t : ℤ) + 1)) := by
    unfold pyRange1
    rw [List.range'_eq_map_range, List.map_map, List.map_map]
    apply List.map_congr_left
    intro t ht
    simp [Nat.add_comm, Int.add_comm]
  rw [h, sum_map_range]

/-!  ## The deleted-index lists behind `minor`  -/

theorem sortDedup_eq_self {l : List ℤ} (h : l.Sorted (· < ·)) : sortDedup l = l := by
  rw [sortDedup, List.dedup_eq_self.mpr h.nodup]
  exact List.eq_of_perm_of_sorted (List.perm_insertionSort _ l)
    (List.sorted_insertionSort _ l) (h.imp le_of_lt)

/-- The 1-based index list `[t for t in range(1, n+1) if t != i]`, as built
by `minor` when excluding the single index `i`. -/
def delRange (n i : ℕ) : List ℤ :=
  (List.range' 1 (i - 1) ++ List.range' (i + 1) (n - i)).map (fun t : ℕ => (t : ℤ))

theorem filter_pyRange1_ne (n i : ℕ) (h1 : 1 ≤ i) (h2 : i ≤ n) :
    (pyRange1 n).filter (fun r => decide (r ∉ ([(i : ℤ)] : List ℤ))) = delRange n i := by
  unfold pyRange1 delRange
  rw [List.filter_map]
  have hfun : ((fun r : ℤ => decide (r ∉ ([(i : ℤ)] : List ℤ))) ∘ (fun t : ℕ => (t : ℤ))) =
      (fun t : ℕ => decide (t ≠ i)) := by
    funext t
    simp only [Function.comp_apply]
    exact decide_eq_decide.mpr (by simp)
  rw [hfun]
  apply congrArg
  have hsplit : List.range' 1 n = List.range' 1 (i - 1) ++ List.range' i (n - i + 1) := by
    have := List.range'_append 1 (i - 1) (n - i + 1) 1
    simp only [one_mul] at this
    rw [show 1 + (i - 1) = i by omega, show n - i + 1 + (i - 1) = n by omega] at this
    exact this.symm
  rw [hsplit, List.filter_append]
  have hleft : (List.range' 1 (i - 1)).filter (fun t => decide (t ≠ i)) =
      List.range' 1 (i - 1) := by
    apply List.filter_eq_self.mpr
    intro a ha
    rw [List.mem_range'_1] at ha
    simp only [decide_eq_true_eq]
    omega
  have hright : (List.range' i (n - i + 1)).filter (fun t => decide (t ≠ i)) =
      List.range' (i + 1) (n - i) := by
    rw [List.range'_succ, List.filter_cons]
    simp only [decide_eq_true_eq, ne_eq, not_true_eq_false, if_false]
    apply List.filter_eq_self.mpr
    intro a ha
    rw [List.mem_range'_1] at ha
    simp only [decide_eq_true_eq]
    omega
  rw [hleft, hright]

theorem delRange_sorted (n i : ℕ) : (delRange n i).Sorted (· < ·) := by
  unfold delRange
  rw [List.Sorted, List.pairwise_map]
  apply List.Pairwise.imp (fun {a b} (h : a < b) => by exact_mod_cast Int.ofNat_lt.mpr h)
  rw [List.pairwise_append]
  refine ⟨List.pairwise_lt_range' 1 (i - 1) 1 (by omega),
    List.pairwise_lt_range' (i + 1) (n - i) 1 (by omega), ?_⟩
  intro a ha b hb
  rw [List.mem_range'_1] at ha hb
  omega

theorem sortDedup_delRange (n i : ℕ) : sortDedup (delRange n i) = delRange n i :=
  sortDedup_eq_self (delRange_sorted n i)

theorem delRange_length (n i : ℕ) (h1 : 1 ≤ i) (h2 : i ≤ n) :
    (delRange n i).length = n - 1 := by
  unfold delRange
  rw [List.length_map, List.length_append, List.length_range', List.length_range']
  omega

theorem delRange_getElem (n i t : ℕ) (h1 : 1 ≤ i) (h2 : i ≤ n)
    (ht : t < (delRange n i).length) :
    (delRange n i)[t] = if t < i - 1 then (t : ℤ) + 1 else (t : ℤ) + 2 := by
  have hlen := delRange_length n i h1 h2
  unfold delRange at ht ⊢
  rw [List.getElem_map]
  by_cases hc : t < i - 1
  · rw [List.getElem_append_left (by rw [List.length_range']; exact hc), List.getElem_range']
    rw [if_pos hc]
    omega
  · rw [List.getElem_append_right (by rw [List.length_range']; omega), List.getElem_range']
    rw [if_neg hc]
    have ht' : t < n - 1 := by
      rw [← delRange_length n i h1 h2]
      unfold delRange
      rw [List.length_map] at ht ⊢
      exact ht
    simp only [List.length_range']
    omega

/-!  ## Bridge to Mathlib matrices  -/

theorem minorData_eq (A : PyMatrix) (n i j : ℕ) (hr : A.rows = n) (hc : A.cols = n)
    (hi1 : 1 ≤ i) (hi2 : i ≤ n) (hj1 : 1 ≤ j) (hj2 : j ≤ n) :
    my_matrix_lib.minorData A [(i : ℤ)] [(j : ℤ)] =
      ⟨(delRange n i).map (fun r => (delRange n j).map (fun c => idx A r c))⟩ := by
  unfold my_matrix_lib.minorData my_matrix_lib.submatrixData
  rw [hr, hc, filter_pyRange1_ne n i hi1 hi2, filter_pyRange1_ne n j hj1 hj2,
    sortDedup_delRange, sortDedup_delRange]

theorem minorData_rows (A : PyMatrix) (n i j : ℕ) (hr : A.rows = n) (hc : A.cols = n)
    (hi1 : 1 ≤ i) (hi2 : i ≤ n) (hj1 : 1 ≤ j) (hj2 : j ≤ n) :
    (my_matrix_lib.minorData A [(i : ℤ)] [(j : ℤ)]).rows = n - 1 := by
  rw [minorData_eq A n i j hr hc hi1 hi2 hj1 hj2]
  rw [mapmap_rows, delRange_length n i hi1 hi2]

theorem minorData_cols (A : PyMatrix) (n i j : ℕ) (hr : A.rows = n) (hc : A.cols = n)
    (hn : 2 ≤ n) (hi1 : 1 ≤ i) (hi2 : i ≤ n) (hj1 : 1 ≤ j) (hj2 : j ≤ n) :
    (my_matrix_lib.minorData A [(i : ℤ)] [(j : ℤ)]).cols = n - 1 := by
  rw [minorData_eq A n i j hr hc hi1 hi2 hj1 hj2]
  have hne : delRange n i ≠ [] := by
    intro h
    have := delRange_length n i hi1 hi2
    rw [h] at this
    simp at this
    omega
  rw [mapmap_cols _ _ _ hne, delRange_length n j hj1 hj2]

theorem minorData_wf (A : PyMatrix) (n i j : ℕ) (hr : A.rows = n) (hc : A.cols = n)
    (hn : 2 ≤ n) (hi1 : 1 ≤ i) (hi2 : i ≤ n) (hj1 : 1 ≤ j) (hj2 : j ≤ n) :
    (my_matrix_lib.minorData A [(i : ℤ)] [(j : ℤ)]).Wf := by
  rw [minorData_eq A n i j hr hc hi1 hi2 hj1 hj2]
  apply mapmap_wf
  intro h
  have := delRange_length n i hi1 hi2
  rw [h] at this
  simp at this
  omega

/-- The `Matrix (Fin n) (Fin n) ℚ` reading of a well-formed square
`PyMatrix` (0-based positions reading the 1-based accessor). -/
def toMat (A : PyMatrix) (n : ℕ) : Matrix (Fin n) (Fin n) ℚ :=
  fun p q => idx A (((p : ℕ) : ℤ) + 1) (((q : ℕ) : ℤ) + 1)

theorem val_succAbove (k : ℕ) (i0 : Fin (k + 1)) (a : Fin k) :
    ((i0.succAbove a : Fin (k + 1)) : ℕ) =
      if (a : ℕ) < (i0 : ℕ) then (a : ℕ) else (a : ℕ) + 1 := by
  unfold Fin.succAbove
  split
  · rename_i h
    rw [Fin.lt_def] at h
    simp only [Fin.coe_castSucc] at h
    simp [h]
  · rename_i h
    rw [Fin.lt_def] at h
    simp only [Fin.coe_castSucc] at h
    rw [if_neg h]
    simp [Fin.val_succ]

theorem delRange_getElem_succAbove (k : ℕ) (p0 : Fin (k + 1)) (c : Fin k)
    (hb : (c : ℕ) < (delRange (k + 1) ((p0 : ℕ) + 1)).length) :
    (delRange (k + 1) ((p0 : ℕ) + 1))[(c : ℕ)] =
      (((p0.succAbove c : Fin (k + 1)) : ℕ) : ℤ) + 1 := by
  rw [delRange_getElem (k + 1) ((p0 : ℕ) + 1) (c : ℕ) (by omega) (by omega) hb]
  rw [val_succAbove]
  by_cases hcp : (c : ℕ) < (p0 : ℕ)
  · rw [if_pos (by omega), if_pos hcp]
  · rw [if_neg (by omega), if_neg hcp]
    push_cast
    ring

theorem toMat_minorData (k : ℕ) (A : PyMatrix) (hr : A.rows = k + 1) (hc : A.cols = k + 1)
    (i0 j0 : Fin (k + 1)) :
    toMat (my_matrix_lib.minorData A [(((i0 : ℕ) + 1 : ℕ) : ℤ)] [(((j0 : ℕ) + 1 : ℕ) : ℤ)]) k =
      (toMat A (k + 1)).submatrix i0.succAbove j0.succAbove := by
  funext a b
  show idx _ _ _ = _
  rw [minorData_eq A (k + 1) ((i0 : ℕ) + 1) ((j0 : ℕ) + 1) hr hc (by omega) (by omega)
    (by omega) (by omega)]
  have hta : (a : ℕ) < (delRange (k + 1) ((i0 : ℕ) + 1)).length := by
    rw [delRange_length _ _ (by omega) (by omega)]; omega
  have htb : (b : ℕ) < (delRange (k + 1) ((j0 : ℕ) + 1)).length := by
    rw [delRange_length _ _ (by omega) (by omega)]; omega
  rw [idx_mapmap (delRange (k + 1) ((i0 : ℕ) + 1)) (delRange (k + 1) ((j0 : ℕ) + 1))
    (fun r c => idx A r c) (a : ℕ) (b : ℕ) hta htb]
  rw [delRange_getElem_succAbove k i0 a hta, delRange_getElem_succAbove k j0 b htb]
  rfl

theorem sign_zpow_helper (t : ℕ) : (-1 : ℚ) ^ ((1 : ℤ) + ((t : ℤ) + 1)) = (-1 : ℚ) ^ t := by
  have h : (1 : ℤ) + ((t : ℤ) + 1) = (t : ℤ) + 2 := by ring
  rw [h, zpow_add₀ (by norm_num : (-1 : ℚ) ≠ 0), zpow_natCast]
  norm_num

/-- The library's first-row Laplace `determinant` agrees with Mathlib's
determinant of the corresponding `Matrix (Fin n) (Fin n) ℚ`. -/
theorem determinant_eq_det :
    ∀ (n : ℕ) (A : PyMatrix), A.Wf → A.rows = n → A.cols = n → 1 ≤ n →
      my_matrix_lib.determinant A = (toMat A n).det := by
  intro n
  induction n using Nat.strong_induction_on with
  | _ n ih =>
    intro A hwf hr hc hn
    obtain hn1 | ⟨k, rfl⟩ : n = 1 ∨ ∃ k, n = k + 2 := by
      rcases n with - | nn
      · omega
      · rcases nn with - | k
        · exact Or.inl rfl
        · exact Or.inr ⟨k, rfl⟩
    · subst hn1
      unfold my_matrix_lib.determinant
      rw [hr]
      unfold my_matrix_lib.detFuel
      rw [if_pos hr, Matrix.det_fin_one]
      show idx A 1 1 = idx A ((((0 : Fin 1) : ℕ) : ℤ) + 1) ((((0 : Fin 1) : ℕ) : ℤ) + 1)
      norm_num
    · unfold my_matrix_lib.determinant
      rw [hr]
      rw [my_matrix_lib.detFuel]
      rw [if_neg (by omega)]
      rw [hc, sum_pyRange1]
      rw [Matrix.det_succ_row_zero (toMat A (k + 2))]
      rw [← Fin.sum_univ_eq_sum_range
        (fun t : ℕ => idx A 1 ((t : ℤ) + 1) *
          ((-1 : ℚ) ^ ((1 : ℤ) + ((t : ℤ) + 1)) *
            my_matrix_lib.detFuel (k + 1)
              (my_matrix_lib.minorData A [1] [(t : ℤ) + 1]))) (k + 2)]
      apply Finset.sum_congr rfl
      intro i _hi
      have h1 : (1 : ℕ) ≤ (i : ℕ) + 1 := by omega
      have h2 : (i : ℕ) + 1 ≤ k + 2 := by omega
      have hminor :
          my_matrix_lib.detFuel (k + 1)
              (my_matrix_lib.minorData A [1] [((i : ℕ) : ℤ) + 1]) =
            ((toMat A (k + 2)).submatrix Fin.succ i.succAbove).det := by
        have hrows := minorData_rows A (k + 2) 1 ((i : ℕ) + 1) hr hc (by omega) (by omega) h1 h2
        have hcols := minorData_cols A (k + 2) 1 ((i : ℕ) + 1) hr hc (by omega) (by omega)
          (by omega) h1 h2
        have hwfm := minorData_wf A (k + 2) 1 ((i : ℕ) + 1) hr hc (by omega) (by omega)
          (by omega) h1 h2
        push_cast at hrows hcols hwfm
        have hrows' :
            (my_matrix_lib.minorData A [1] [((i : ℕ) : ℤ) + 1]).rows = k + 1 := by omega
        have hcols' :
            (my_matrix_lib.minorData A [1] [((i : ℕ) : ℤ) + 1]).cols = k + 1 := by omega
        have hfuel :
            my_matrix_lib.detFuel (k + 1)
                (my_matrix_lib.minorData A [1] [((i : ℕ) : ℤ) + 1]) =
              my_matrix_lib.determinant
                (my_matrix_lib.minorData A [1] [((i : ℕ) : ℤ) + 1]) := by
          unfold my_matrix_lib.determinant
          rw [hrows']
        rw [hfuel]
        rw [ih (k + 1) (by omega) _ hwfm hrows' hcols' (by omega)]
        have htm := toMat_minorData (k + 1) A hr hc 0 i
        rw [Fin.succAbove_zero] at htm
        push_cast [Fin.val_zero] at htm
        rw [htm]
      rw [hminor, sign_zpow_helper]
      have hentry : idx A 1 (((i : ℕ) : ℤ) + 1) = toMat A (k + 2) 0 i := by
        show _ = idx A ((((0 : Fin (k + 2)) : ℕ) : ℤ) + 1) ((((i : Fin (k + 2)) : ℕ) : ℤ) + 1)
        norm_num
      rw [hentry]
      ring

theorem identityData_rows (n : ℕ) : (my_matrix_lib.identityData n).rows = n := by
  unfold my_matrix_lib.identityData
  rw [mapmap_rows, List.length_range]

theorem identityData_cols (n : ℕ) (hn : 0 < n) : (my_matrix_lib.identityData n).cols = n := by
  unfold my_matrix_lib.identityData
  rw [mapmap_cols _ _ _ (by simp [List.range_eq_nil]; omega), List.length_range]

theorem identityData_wf (n : ℕ) (hn : 0 < n) : (my_matrix_lib.identityData n).Wf := by
  unfold my_matrix_lib.identityData
  exact mapmap_wf _ _ _ (by simp [List.range_eq_nil]; omega)

theorem idx_identityData (n p q : ℕ) (hp : p < n) (hq : q < n) :
    idx (my_matrix_lib.identityData n) ((p : ℤ) + 1) ((q : ℤ) + 1) =
      if p = q then (1 : ℚ) else 0 := by
  unfold my_matrix_lib.identityData
  rw [idx_mapmap (List.range n) (List.range n)
    (fun i j => if i = j then (1 : ℚ) else 0) p q (by simpa using hp) (by simpa using hq)]
  rw [List.getElem_range, List.getElem_range]

theorem toMat_identityData (n : ℕ) : toMat (my_matrix_lib.identityData n) n = 1 := by
  funext p q
  show idx _ _ _ = _
  rw [idx_identityData n p q p.isLt q.isLt]
  rw [Matrix.one_apply]
  by_cases h : p = q
  · rw [if_pos h, if_pos (by rw [h])]
  · rw [if_neg h, if_neg (fun hc => h (Fin.val_injective hc))]

/-- **C2**.  For every positive `n`, the factory `identity(n)` builds the
n×n identity matrix, its first-row-Laplace `determinant` is `1`, and its
`trace` is `n`. -/
theorem identity_det_trace (n : ℕ) (hn : 0 < n) :
    my_matrix_lib.identity (n : ℤ) = Except.ok (my_matrix_lib.identityData n) ∧
    my_matrix_lib.determinant (my_matrix_lib.identityData n) = 1 ∧
    my_matrix_lib.trace (my_matrix_lib.identityData n) = (n : ℚ) := by
  refine ⟨?_, ?_, ?_⟩
  · unfold my_matrix_lib.identity
    rw [if_neg (by omega)]
    simp
  · rw [determinant_eq_det n (my_matrix_lib.identityData n) (identityData_wf n hn)
      (identityData_rows n) (identityData_cols n hn) (by omega)]
    rw [toMat_identityData, Matrix.det_one]
  · unfold my_matrix_lib.trace
    rw [identityData_rows, sum_pyRange1]
    have : ∀ t ∈ Finset.range n,
        idx (my_matrix_lib.identityData n) ((t : ℤ) + 1) ((t : ℤ) + 1) = 1 := by
      intro t ht
      rw [Finset.mem_range] at ht
      rw [idx_identityData n t t ht ht, if_pos rfl]
    rw [Finset.sum_congr rfl this]
    simp

/-- Witness for **C2** at `n = 3`. -/
theorem identity_det_trace_witness :
    0 < 3 ∧
    (my_matrix_lib.identity ((3 : ℕ) : ℤ) = Except.ok (my_matrix_lib.identityData 3) ∧
     my_matrix_lib.determinant (my_matrix_lib.identityData 3) = 1 ∧
     my_matrix_lib.trace (my_matrix_lib.identityData 3) = ((3 : ℕ) : ℚ)) :=
  ⟨by decide, identity_det_trace 3 (by decide)⟩

theorem pyRange1_mem (n : ℕ) (x : ℤ) : x ∈ pyRange1 n ↔ 1 ≤ x ∧ x ≤ (n : ℤ) := by
  unfold pyRange1
  simp only [List.mem_map, List.mem_range'_1]
  constructor
  · rintro ⟨t, ⟨ht1, ht2⟩, rfl⟩
    omega
  · intro ⟨h1, h2⟩
    exact ⟨x.toNat, ⟨by omega, by omega⟩, by omega⟩

theorem delRange_mem (n i : ℕ) (h1 : 1 ≤ i) (h2 : i ≤ n) (x : ℤ) (hx : x ∈ delRange n i) :
    1 ≤ x ∧ x ≤ (n : ℤ) := by
  unfold delRange at hx
  simp only [List.mem_map, List.mem_append, List.mem_range'_1] at hx
  obtain ⟨t, ht | ht, rfl⟩ := hx <;> omega

theorem list_mapM_ok {α β : Type} (l : List α) (f : α → Except PyErr β) (g : α → β)
    (h : ∀ x ∈ l, f x = Except.ok (g x)) : l.mapM f = Except.ok (l.map g) := by
  induction l with
  | nil => rfl
  | cons a t ih =>
    rw [List.mapM_cons, h a (List.mem_cons_self a t),
      ih (fun x hx => h x (List.mem_cons_of_mem a hx))]
    rfl

theorem transpose_rows (A : PyMatrix) : (my_matrix_lib.transpose A).rows = A.cols := by
  unfold my_matrix_lib.transpose
  rw [mapmap_rows, pyRange1_length]

theorem transpose_cols (A : PyMatrix) (h : 0 < A.cols) :
    (my_matrix_lib.transpose A).cols = A.rows := by
  unfold my_matrix_lib.transpose
  rw [mapmap_cols _ _ _ (by
    intro hnil
    have := pyRange1_length A.cols
    rw [hnil] at this
    simp at this
    omega), pyRange1_length]

theorem idx_transpose (A : PyMatrix) (t u : ℕ) (ht : t < A.cols) (hu : u < A.rows) :
    idx (my_matrix_lib.transpose A) ((t : ℤ) + 1) ((u : ℤ) + 1) =
      idx A ((u : ℤ) + 1) ((t : ℤ) + 1) := by
  unfold my_matrix_lib.transpose
  rw [idx_mapmap (pyRange1 A.cols) (pyRange1 A.rows) (fun c r => idx A r c) t u
    (by rw [pyRange1_length]; exact ht) (by rw [pyRange1_length]; exact hu)]
  rw [pyRange1_getElem A.cols t (by rw [pyRange1_length]; exact ht),
    pyRange1_getElem A.rows u (by rw [pyRange1_length]; exact hu)]

theorem scalar_multiplication_rows (A : PyMatrix) (s : ℚ) :
    (my_matrix_lib.scalar_multiplication A s).rows = A.rows := by
  unfold my_matrix_lib.scalar_multiplication
  rw [mapmap_rows, List.length_range]

theorem scalar_multiplication_cols (A : PyMatrix) (s : ℚ) (h : 0 < A.rows) :
    (my_matrix_lib.scalar_multiplication A s).cols = A.cols := by
  unfold my_matrix_lib.scalar_multiplication
  rw [mapmap_cols _ _ _ (by simp [List.range_eq_nil]; omega), List.length_range]

theorem idx_scalar_multiplication (A : PyMatrix) (s : ℚ) (t u : ℕ)
    (ht : t < A.rows) (hu : u < A.cols) :
    idx (my_matrix_lib.scalar_multiplication A s) ((t : ℤ) + 1) ((u : ℤ) + 1) =
      s * idx A ((t : ℤ) + 1) ((u : ℤ) + 1) := by
  unfold my_matrix_lib.scalar_multiplication
  rw [idx_mapmap (List.range A.rows) (List.range A.cols)
    (fun r c => s * idx A ((r : ℤ) + 1) ((c : ℤ) + 1)) t u
    (by simpa using ht) (by simpa using hu)]
  rw [List.getElem_range, List.getElem_range]

/-!  ## The adjugate chain of `inverse_matrix`  -/

/-- The value `C(i,j)` computes on the non-raising paths. -/
def cofVal (A : PyMatrix) (i j : ℤ) : ℚ :=
  (-1 : ℚ) ^ (i + j) * my_matrix_lib.determinant (my_matrix_lib.minorData A [i] [j])

/-- The matrix `cofactor_matrix` builds on the non-raising paths. -/
def cofData (A : PyMatrix) : PyMatrix :=
  ⟨(pyRange1 A.rows).map (fun i => (pyRange1 A.cols).map (fun j => cofVal A i j))⟩

theorem minor_ok (A : PyMatrix) (n : ℕ) (hr : A.rows = n) (hc : A.cols = n) (hn : 2 ≤ n)
    (i j : ℕ) (hi1 : 1 ≤ i) (hi2 : i ≤ n) (hj1 : 1 ≤ j) (hj2 : j ≤ n) :
    my_matrix_lib.minor A [(i : ℤ)] [(j : ℤ)] =
      Except.ok (my_matrix_lib.determinant (my_matrix_lib.minorData A [(i : ℤ)] [(j : ℤ)])) := by
  unfold my_matrix_lib.minor
  rw [if_neg (by simp), if_neg (by simp)]
  rw [if_neg (by simp [hr]; omega), if_neg (by simp [hc]; omega)]
  rw [hr, hc, filter_pyRange1_ne n i hi1 hi2, filter_pyRange1_ne n j hj1 hj2]
  unfold my_matrix_lib.submatrix
  have hlen_i : (delRange n i).length = n - 1 := delRange_length n i hi1 hi2
  have hlen_j : (delRange n j).length = n - 1 := delRange_length n j hj1 hj2
  rw [if_neg (by intro h; rw [h] at hlen_i; simp at hlen_i; omega),
    if_neg (by intro h; rw [h] at hlen_j; simp at hlen_j; omega)]
  rw [if_neg (by
    rw [List.any_eq_true]
    rintro ⟨x, hx, hdec⟩
    rw [decide_eq_true_eq] at hdec
    have hb := delRange_mem n i hi1 hi2 x hx
    exact hdec ⟨hb.1, by rw [hr]; exact hb.2⟩)]
  rw [if_neg (by
    rw [List.any_eq_true]
    rintro ⟨x, hx, hdec⟩
    rw [decide_eq_true_eq] at hdec
    have hb := delRange_mem n j hj1 hj2 x hx
    exact hdec ⟨hb.1, by rw [hc]; exact hb.2⟩)]
  have hmdata : my_matrix_lib.minorData A [(i : ℤ)] [(j : ℤ)] =
      my_matrix_lib.submatrixData A (delRange n i) (delRange n j) := by
    unfold my_matrix_lib.minorData
    rw [hr, hc, filter_pyRange1_ne n i hi1 hi2, filter_pyRange1_ne n j hj1 hj2]
  rw [hmdata]
  rfl

theorem cofactor_ok (A : PyMatrix) (n : ℕ) (hr : A.rows = n) (hc : A.cols = n) (hn : 2 ≤ n)
    (i j : ℕ) (hi1 : 1 ≤ i) (hi2 : i ≤ n) (hj1 : 1 ≤ j) (hj2 : j ≤ n) :
    my_matrix_lib.cofactor A (i : ℤ) (j : ℤ) = Except.ok (cofVal A (i : ℤ) (j : ℤ)) := by
  unfold my_matrix_lib.cofactor my_matrix_lib.first_minor
  rw [minor_ok A n hr hc hn i j hi1 hi2 hj1 hj2]
  rfl

theorem cofactor_matrix_ok (A : PyMatrix) (n : ℕ) (hr : A.rows = n) (hc : A.cols = n)
    (hn : 2 ≤ n) :
    my_matrix_lib.cofactor_matrix A = Except.ok (cofData A) := by
  unfold my_matrix_lib.cofactor_matrix
  rw [list_mapM_ok (pyRange1 A.rows)
    (fun i => (pyRange1 A.cols).mapM (fun j => my_matrix_lib.cofactor A i j))
    (fun i => (pyRange1 A.cols).map (fun j => cofVal A i j)) ?_]
  · rfl
  · intro x hx
    rw [pyRange1_mem] at hx
    apply list_mapM_ok
    intro y hy
    rw [pyRange1_mem] at hy
    rw [show x = ((x.toNat : ℕ) : ℤ) by omega, show y = ((y.toNat : ℕ) : ℤ) by omega]
    exact cofactor_ok A n hr hc hn x.toNat y.toNat (by omega) (by rw [hr] at hx; omega)
      (by omega) (by rw [hc] at hy; omega)

theorem adjugate_matrix_ok (A : PyMatrix) (n : ℕ) (hr : A.rows = n) (hc : A.cols = n)
    (hn : 2 ≤ n) :
    my_matrix_lib.adjugate_matrix A =
      Except.ok (my_matrix_lib.transpose (cofData A)) := by
  unfold my_matrix_lib.adjugate_matrix
  rw [cofactor_matrix_ok A n hr hc hn]
  rfl

theorem cofData_rows (A : PyMatrix) : (cofData A).rows = A.rows := by
  unfold cofData
  rw [mapmap_rows, pyRange1_length]

theorem cofData_cols (A : PyMatrix) (h : 0 < A.rows) : (cofData A).cols = A.cols := by
  unfold cofData
  rw [mapmap_cols _ _ _ (by
    intro hnil
    have := pyRange1_length A.rows
    rw [hnil] at this
    simp at this
    omega), pyRange1_length]

theorem idx_cofData (A : PyMatrix) (t u : ℕ) (ht : t < A.rows) (hu : u < A.cols) :
    idx (cofData A) ((t : ℤ) + 1) ((u : ℤ) + 1) = cofVal A ((t : ℤ) + 1) ((u : ℤ) + 1) := by
  unfold cofData
  rw [idx_mapmap (pyRange1 A.rows) (pyRange1 A.cols) (fun i j => cofVal A i j) t u
    (by rw [pyRange1_length]; exact ht) (by rw [pyRange1_length]; exact hu)]
  rw [pyRange1_getElem A.rows t (by rw [pyRange1_length]; exact ht),
    pyRange1_getElem A.cols u (by rw [pyRange1_length]; exact hu)]

theorem sign_zpow_helper2 (a b : ℕ) :
    (-1 : ℚ) ^ (((a : ℤ) + 1) + ((b : ℤ) + 1)) = (-1 : ℚ) ^ (a + b) := by
  have h : ((a : ℤ) + 1) + ((b : ℤ) + 1) = ((a + b : ℕ) : ℤ) + 2 := by push_cast; ring
  rw [h, zpow_add₀ (by norm_num : (-1 : ℚ) ≠ 0), zpow_natCast]
  norm_num

theorem cofVal_eq_adjugate (k : ℕ) (A : PyMatrix) (_hwf : A.Wf)
    (hr : A.rows = k + 2) (hc : A.cols = k + 2) (c r : Fin (k + 2)) :
    cofVal A (((c : ℕ) : ℤ) + 1) (((r : ℕ) : ℤ) + 1) = (toMat A (k + 2)).adjugate r c := by
  unfold cofVal
  rw [sign_zpow_helper2]
  have hcastc : ((c : ℕ) : ℤ) + 1 = (((c : ℕ) + 1 : ℕ) : ℤ) := by push_cast; ring
  have hcastr : ((r : ℕ) : ℤ) + 1 = (((r : ℕ) + 1 : ℕ) : ℤ) := by push_cast; ring
  rw [hcastc, hcastr]
  have h1c : 1 ≤ (c : ℕ) + 1 := by omega
  have h2c : (c : ℕ) + 1 ≤ k + 2 := by omega
  have h1r : 1 ≤ (r : ℕ) + 1 := by omega
  have h2r : (r : ℕ) + 1 ≤ k + 2 := by omega
  have hrows := minorData_rows A (k + 2) ((c : ℕ) + 1) ((r : ℕ) + 1) hr hc h1c h2c h1r h2r
  have hcols := minorData_cols A (k + 2) ((c : ℕ) + 1) ((r : ℕ) + 1) hr hc (by omega)
    h1c h2c h1r h2r
  have hwfm := minorData_wf A (k + 2) ((c : ℕ) + 1) ((r : ℕ) + 1) hr hc (by omega)
    h1c h2c h1r h2r
  have hrows' : (my_matrix_lib.minorData A [(((c : ℕ) + 1 : ℕ) : ℤ)]
      [(((r : ℕ) + 1 : ℕ) : ℤ)]).rows = k + 1 := by omega
  have hcols' : (my_matrix_lib.minorData A [(((c : ℕ) + 1 : ℕ) : ℤ)]
      [(((r : ℕ) + 1 : ℕ) : ℤ)]).cols = k + 1 := by omega
  rw [determinant_eq_det (k + 1) _ hwfm hrows' hcols' (by omega)]
  rw [toMat_minorData (k + 1) A hr hc c r]
  rw [Matrix.adjugate_fin_succ_eq_det_submatrix]

/-- **C1** (amended: `A` at least 2×2; on a 1×1 matrix the adjugate
computation asks `submatrix` for an empty selection and raises
`InvalidDataError`, see `inverse_one_by_one_counterexample`).  For every
well-formed square matrix of size `n ≥ 2` whose determinant has absolute
value at least the tolerance, `inverse_matrix` returns the adjugate scaled
by `1/determinant`, and `multiply(A, inverse(A))` is exactly
`identity(A.rows)` — hence every entry is within tolerance of the identity
entry. -/
theorem inverse_mul_identity (A : PyMatrix) (n : ℕ) (hwf : A.Wf)
    (hr : A.rows = n) (hc : A.cols = n) (hn : 2 ≤ n)
    (hdet : eps ≤ |my_matrix_lib.determinant A|) :
    ∃ B,
      my_matrix_lib.adjugate_matrix A =
        Except.ok (my_matrix_lib.transpose (cofData A)) ∧
      B = my_matrix_lib.scalar_multiplication (my_matrix_lib.transpose (cofData A))
        (1 / my_matrix_lib.determinant A) ∧
      my_matrix_lib.inverse_matrix A = Except.ok B ∧
      my_matrix_lib.matrix_multiplication A B = Except.ok (my_matrix_lib.identityData n) ∧
      (∀ C, my_matrix_lib.matrix_multiplication A B = Except.ok C →
        ∀ i j : ℕ, i < n → j < n →
          |idx C ((i : ℤ) + 1) ((j : ℤ) + 1) -
            idx (my_matrix_lib.identityData n) ((i : ℤ) + 1) ((j : ℤ) + 1)| ≤ eps) := by
  obtain ⟨k, rfl⟩ : ∃ k, n = k + 2 := ⟨n - 2, by omega⟩
  have hdpos : (0 : ℚ) < eps := by norm_num [eps]
  have hdet0 : my_matrix_lib.determinant A ≠ 0 := by
    intro h0
    rw [h0] at hdet
    simp only [abs_zero] at hdet
    linarith
  have hdM : (toMat A (k + 2)).det = my_matrix_lib.determinant A :=
    (determinant_eq_det (k + 2) A hwf hr hc (by omega)).symm
  have hadj := adjugate_matrix_ok A (k + 2) hr hc (by omega)
  have hcofrows : (cofData A).rows = k + 2 := by rw [cofData_rows, hr]
  have hcofcols : (cofData A).cols = k + 2 := by
    rw [cofData_cols A (by omega), hc]
  have hBadjrows : (my_matrix_lib.transpose (cofData A)).rows = k + 2 := by
    rw [transpose_rows, hcofcols]
  have hBadjcols : (my_matrix_lib.transpose (cofData A)).cols = k + 2 := by
    rw [transpose_cols _ (by omega), hcofrows]
  set Badj := my_matrix_lib.transpose (cofData A) with hBadjdef
  set B := my_matrix_lib.scalar_multiplication Badj (1 / my_matrix_lib.determinant A)
    with hBdef
  have hBrows : B.rows = k + 2 := by
    rw [hBdef, scalar_multiplication_rows, hBadjrows]
  have hBcols : B.cols = k + 2 := by
    rw [hBdef, scalar_multiplication_cols _ _ (by omega), hBadjcols]
  have hBentry : ∀ r c : Fin (k + 2),
      idx B (((r : ℕ) : ℤ) + 1) (((c : ℕ) : ℤ) + 1) =
        (1 / my_matrix_lib.determinant A) * (toMat A (k + 2)).adjugate r c := by
    intro r c
    rw [hBdef]
    rw [idx_scalar_multiplication Badj _ (r : ℕ) (c : ℕ)
      (by rw [hBadjrows]; omega) (by rw [hBadjcols]; omega)]
    rw [hBadjdef]
    rw [idx_transpose (cofData A) (r : ℕ) (c : ℕ)
      (by rw [hcofcols]; omega) (by rw [hcofrows]; omega)]
    rw [idx_cofData A (c : ℕ) (r : ℕ) (by rw [hr]; omega) (by rw [hc]; omega)]
    rw [cofVal_eq_adjugate k A hwf hr hc c r]
  have hmul : my_matrix_lib.matrix_multiplication A B =
      Except.ok (my_matrix_lib.identityData (k + 2)) := by
    unfold my_matrix_lib.matrix_multiplication
    rw [if_neg (not_not_intro (by rw [hc, hBrows]))]
    apply congrArg Except.ok
    apply congrArg PyMatrixOf.mk
    rw [hr, hc, hBcols]
    apply List.map_congr_left
    intro i hi
    rw [List.mem_range] at hi
    apply List.map_congr_left
    intro j hj
    rw [List.mem_range] at hj
    rw [sum_map_range]
    rw [← Fin.sum_univ_eq_sum_range
      (fun r : ℕ => idx A ((i : ℤ) + 1) ((r : ℤ) + 1) *
        idx B ((r : ℤ) + 1) ((j : ℤ) + 1)) (k + 2)]
    have hterm : ∀ r : Fin (k + 2),
        idx A ((i : ℤ) + 1) (((r : ℕ) : ℤ) + 1) *
          idx B (((r : ℕ) : ℤ) + 1) ((j : ℤ) + 1) =
        (1 / my_matrix_lib.determinant A) *
          (toMat A (k + 2) ⟨i, hi⟩ r * (toMat A (k + 2)).adjugate r ⟨j, hj⟩) := by
      intro r
      rw [hBentry r ⟨j, hj⟩]
      have hA : idx A ((i : ℤ) + 1) (((r : ℕ) : ℤ) + 1) = toMat A (k + 2) ⟨i, hi⟩ r := rfl
      rw [hA]
      ring
    rw [Finset.sum_congr rfl (fun r _ => hterm r)]
    rw [← Finset.mul_sum]
    have hsum : ∑ r : Fin (k + 2),
        toMat A (k + 2) ⟨i, hi⟩ r * (toMat A (k + 2)).adjugate r ⟨j, hj⟩ =
        (toMat A (k + 2) * (toMat A (k + 2)).adjugate) ⟨i, hi⟩ ⟨j, hj⟩ :=
      (Matrix.mul_apply).symm
    rw [hsum, Matrix.mul_adjugate, Matrix.smul_apply, Matrix.one_apply, hdM]
    by_cases hij : i = j
    · rw [if_pos (show (⟨i, hi⟩ : Fin (k + 2)) = ⟨j, hj⟩ by subst hij; rfl), if_pos hij]
      rw [smul_eq_mul, mul_one, one_div, inv_mul_cancel₀ hdet0]
    · rw [if_neg (fun hfin => hij (by
        have := congrArg Fin.val hfin
        simpa using this)), if_neg hij]
      rw [smul_eq_mul, mul_zero, mul_zero]
  refine ⟨B, hadj, rfl, ?_, hmul, ?_⟩
  · unfold my_matrix_lib.inverse_matrix
    rw [if_neg (not_lt.mpr hdet), hadj]
    rfl
  · intro C hC i j hi hj
    rw [hmul] at hC
    have : C = my_matrix_lib.identityData (k + 2) := (Except.ok.inj hC).symm
    rw [this, sub_self, abs_zero]
    exact le_of_lt hdpos

/-- Witness for **C1** at `A = [[2,1],[1,1]]` (determinant `1`). -/
theorem inverse_mul_identity_witness :
    ((⟨[[2,1],[1,1]]⟩ : PyMatrix).Wf ∧ (⟨[[2,1],[1,1]]⟩ : PyMatrix).rows = 2 ∧
      (⟨[[2,1],[1,1]]⟩ : PyMatrix).cols = 2 ∧ 2 ≤ 2 ∧
      eps ≤ |my_matrix_lib.determinant ⟨[[2,1],[1,1]]⟩|) ∧
    (∃ B,
      my_matrix_lib.adjugate_matrix ⟨[[2,1],[1,1]]⟩ =
        Except.ok (my_matrix_lib.transpose (cofData ⟨[[2,1],[1,1]]⟩)) ∧
      B = my_matrix_lib.scalar_multiplication (my_matrix_lib.transpose (cofData ⟨[[2,1],[1,1]]⟩))
        (1 / my_matrix_lib.determinant ⟨[[2,1],[1,1]]⟩) ∧
      my_matrix_lib.inverse_matrix ⟨[[2,1],[1,1]]⟩ = Except.ok B ∧
      my_matrix_lib.matrix_multiplication ⟨[[2,1],[1,1]]⟩ B =
        Except.ok (my_matrix_lib.identityData 2) ∧
      (∀ C, my_matrix_lib.matrix_multiplication ⟨[[2,1],[1,1]]⟩ B = Except.ok C →
        ∀ i j : ℕ, i < 2 → j < 2 →
          |idx C ((i : ℤ) + 1) ((j : ℤ) + 1) -
            idx (my_matrix_lib.identityData 2) ((i : ℤ) + 1) ((j : ℤ) + 1)| ≤ eps)) :=
  ⟨⟨by decide, rfl, rfl, by omega, by with_unfolding_all decide⟩,
   inverse_mul_identity ⟨[[2,1],[1,1]]⟩ 2 (by decide) rfl rfl (by omega)
     (by with_unfolding_all decide)⟩

/-- **C1** (refuting evaluation for the claim as stated).  The 1×1 matrix
`[[2]]` is square with `|determinant| = 2 ≥ tolerance`, yet `inverse_matrix`
does not return the scaled adjugate: computing the adjugate calls
`minor([1],[1])`, whose `submatrix` call receives empty index lists and
raises `InvalidDataError`. -/
theorem inverse_one_by_one_counterexample :
    eps ≤ |my_matrix_lib.determinant ⟨[[2]]⟩| ∧
    my_matrix_lib.inverse_matrix ⟨[[2]]⟩ = Except.error PyErr.invalidData := by
  constructor
  · with_unfolding_all decide
  · with_unfolding_all rfl
